import Mathlib

/-!
Verification of the SpAN core: the reversal (inflection) detector
(`src/span/inflection.py`), the frame-selection helper built on its output
(`get_inflection_points` plus the 1-based index list assembled in
`src/span/main_window.py`), and the graph-widget viewport computations
(`src/span/graph_widget.py`).

Flux samples are modelled as rationals: the Python code only ever compares
sample values (no arithmetic is performed on them by the detector), and the
spec excludes NaN/Infinity inputs, so any linearly ordered field is a
faithful carrier for the float values.
-/

namespace Span

/-! ## Data model (src/span/inflection.py) -/

/-- Per-sample classification, `class InflectionType(Enum)` (inflection.py lines 9-12). -/
inductive InflectionType where
  | NORMAL
  | DOWN_TO_UP
  | UP_TO_DOWN
deriving DecidableEq, Repr

/-- The scan direction, the `"up"` / `"down"` strings of the Python source. -/
inductive Direction where
  | up
  | down
deriving DecidableEq, Repr

/-! ## detect_inflections (inflection.py lines 22-94) -/

/-- Initial-direction scan (inflection.py lines 42-50): walk adjacent pairs from
the front; the first strictly increasing pair gives `up`, the first strictly
decreasing pair gives `down`; equal pairs are skipped; `none` if no unequal
pair exists. -/
def initial_direction : List ℚ → Option Direction
  | [] => none
  | [_] => none
  | a :: b :: rest =>
    if a < b then some .up
    else if b < a then some .down
    else initial_direction (b :: rest)

/-- The down-to-up validation guard (inflection.py lines 70-77), conjuncts in
source order: `p >= 2 and p + 2 < n and flux[p] < flux[p+1] and
flux[p+1] < flux[p+2] and flux[p] < flux[p-1] and flux[p-1] < flux[p-2]`.
Element accesses use `getD`; the first two conjuncts guarantee all the
accessed indices are in bounds, exactly as Python's short-circuit `and`
guarantees no out-of-range subscript is evaluated. -/
def dtu_valid (flux : List ℚ) (p : Nat) : Prop :=
  2 ≤ p ∧ p + 2 < flux.length ∧
    flux.getD p 0 < flux.getD (p + 1) 0 ∧
    flux.getD (p + 1) 0 < flux.getD (p + 2) 0 ∧
    flux.getD p 0 < flux.getD (p - 1) 0 ∧
    flux.getD (p - 1) 0 < flux.getD (p - 2) 0

instance (flux : List ℚ) (p : Nat) : Decidable (dtu_valid flux p) := by
  unfold dtu_valid; infer_instance

/-- The up-to-down validation guard (inflection.py lines 82-89), conjuncts in
source order: `p >= 2 and p + 2 < n and flux[p] > flux[p+1] and
flux[p+1] > flux[p+2] and flux[p] > flux[p-1] and flux[p-1] > flux[p-2]`. -/
def utd_valid (flux : List ℚ) (p : Nat) : Prop :=
  2 ≤ p ∧ p + 2 < flux.length ∧
    flux.getD p 0 > flux.getD (p + 1) 0 ∧
    flux.getD (p + 1) 0 > flux.getD (p + 2) 0 ∧
    flux.getD p 0 > flux.getD (p - 1) 0 ∧
    flux.getD (p - 1) 0 > flux.getD (p - 2) 0

instance (flux : List ℚ) (p : Nat) : Decidable (utd_valid flux p) := by
  unfold utd_valid; infer_instance

/-- State threaded through the scan loop: the tracked `prev_direction` string
and the mutated `labels` list of inflection.py. -/
structure ScanState where
  prevDir : Direction
  labels : List InflectionType
deriving DecidableEq, Repr

/-- Local direction of the pair `(i-1, i)` (inflection.py lines 57-62):
`flux[i] > flux[i-1]` gives `up`, `flux[i] < flux[i-1]` gives `down`, equal
values give `none` (the loop `continue`s). -/
def local_direction (flux : List ℚ) (i : Nat) : Option Direction :=
  if flux.getD (i - 1) 0 < flux.getD i 0 then some .up
  else if flux.getD i 0 < flux.getD (i - 1) 0 then some .down
  else none

/-- One iteration of the scan loop body (inflection.py lines 56-92) at index
`i`.  On an equal pair nothing happens; when the local direction equals the
tracked direction nothing happens; otherwise the candidate `p = i - 1` is
validated (and labelled when the guard holds) and the tracked direction
always advances to the local direction.  `List.set` is Python's
`labels[p] = ...` (both leave the list unchanged out of bounds, and the
guard's bound conjuncts keep `p` in bounds whenever a label is written). -/
def scan_step (flux : List ℚ) (s : ScanState) (i : Nat) : ScanState :=
  match local_direction flux i with
  | none => s
  | some current =>
    if current = s.prevDir then s
    else
      let p := i - 1
      let labels :=
        match s.prevDir, current with
        | .down, .up =>
          if dtu_valid flux p then s.labels.set p .DOWN_TO_UP else s.labels
        | .up, .down =>
          if utd_valid flux p then s.labels.set p .UP_TO_DOWN else s.labels
        | _, _ => s.labels
      { prevDir := current, labels := labels }

/-- `detect_inflections` (inflection.py lines 22-94).  Returns the label list
of the `InflectionResult`.  The scan loop `for i in range(2, n)` is the fold
over `List.range' 2 (n - 2) = [2, 3, ..., n-1]`. -/
def detect_inflections (flux : List ℚ) : List InflectionType :=
  let n := flux.length
  if n < 5 then List.replicate n .NORMAL
  else
    match initial_direction flux with
    | none => List.replicate n .NORMAL
    | some d =>
      ((List.range' 2 (n - 2)).foldl (scan_step flux) ⟨d, List.replicate n .NORMAL⟩).labels

/-! ## get_inflection_points (inflection.py lines 97-119) -/

/-- The two `continue` guards of the extraction loop (inflection.py lines
114-117): a point is skipped when its label is `NORMAL`, or when a filter is
given and the label differs from it. -/
def skips (label : InflectionType) (filter_type : Option InflectionType) : Bool :=
  label = InflectionType.NORMAL ||
    (match filter_type with
     | some f => label ≠ f
     | none => false)

/-- The extraction loop of `get_inflection_points` (inflection.py lines
112-119), recursing over the remaining labels with `i` the current
`enumerate` index.  The subscript `flux[i]` is evaluated only for points that
survive both guards; an out-of-range subscript (Python `IndexError`) is
modelled as `none`. -/
def collect_points (flux : List ℚ) (filter_type : Option InflectionType) :
    Nat → List InflectionType → Option (List (Nat × ℚ × InflectionType))
  | _, [] => some []
  | i, label :: rest =>
    if skips label filter_type then collect_points flux filter_type (i + 1) rest
    else
      match flux[i]? with
      | none => none
      | some v =>
        (collect_points flux filter_type (i + 1) rest).map
          (fun pts => (i, v, label) :: pts)

/-- `get_inflection_points` (inflection.py lines 97-119): list of
`(point_index, flux_value, inflection_type)` tuples, `none` on an
out-of-range `flux[i]`. -/
def get_inflection_points (flux : List ℚ) (labels : List InflectionType)
    (filter_type : Option InflectionType) :
    Option (List (Nat × ℚ × InflectionType)) :=
  collect_points flux filter_type 0 labels

/-- The 1-based index column of the inflection list built by
`MainWindow._update_inflection_list` (main_window.py lines 543-547): one
entry `idx + 1` per point returned by `get_inflection_points`; these are the
frame numbers later handed to the video subsampler. -/
def selected_frame_indices (flux : List ℚ) (labels : List InflectionType)
    (filter_type : Option InflectionType) : Option (List Nat) :=
  (get_inflection_points flux labels filter_type).map (List.map (fun x => x.1 + 1))

/-! ## GraphWidget viewport (src/span/graph_widget.py) -/

/-- An RGB colour, standing in for `QColor(r, g, b)`. -/
structure Color where
  red : Nat
  green : Nat
  blue : Nat
deriving DecidableEq, Repr

/-- The colour table `DEFAULT_COLORS` (graph_widget.py lines 13-22); each
widget holds an instance copy (lines 52-54). -/
structure ColorConfig where
  background : Color := ⟨0, 0, 0⟩
  grid_lines : Color := ⟨80, 80, 80⟩
  grid_text : Color := ⟨200, 200, 200⟩
  line_up : Color := ⟨255, 255, 0⟩
  line_down : Color := ⟨255, 0, 0⟩
  marker_down_to_up : Color := ⟨0, 100, 255⟩
  marker_up_to_down : Color := ⟨0, 200, 0⟩
  point_marker : Color := ⟨255, 255, 255⟩
deriving DecidableEq, Repr

/-- The fields of `GraphWidget` set in `__init__` (graph_widget.py lines
28-64), with their initial values as defaults.  The Qt widget geometry
(`width()` / `height()`) is not a field of the Python object; it is passed to
the paint model as an argument. -/
structure GraphWidget where
  flux : List ℚ := []
  labels : List InflectionType := []
  y_low : ℚ := 0
  y_high : ℚ := 5000
  x_step : ℤ := 5
  grid_x : ℤ := 25
  grid_y : ℤ := 100
  grid_font_size : ℤ := 10
  line_thickness : ℤ := 1
  show_x_grid : Bool := true
  show_y_grid : Bool := true
  highlight_inversions : Bool := true
  draw_slice_number : Bool := false
  draw_point_marker : Bool := false
  show_down_to_up : Bool := true
  show_up_to_down : Bool := true
  colors : ColorConfig := {}
  scroll_offset : ℤ := 0
  visible_start : ℤ := 0
  visible_end : ℤ := 0
deriving DecidableEq, Repr

/-- `GraphWidget.set_data` (graph_widget.py lines 70-74): store the new flux
and label lists and reset the scroll offset; `self.update()` only schedules a
repaint and touches no field. -/
def set_data (w : GraphWidget) (flux : List ℚ) (labels : List InflectionType) :
    GraphWidget :=
  { w with flux := flux, labels := labels, scroll_offset := 0 }

/-- `GraphWidget.points_per_screen` (graph_widget.py lines 76-79); `width` is
`self.width()`.  Python's floor division `//` is `Int.fdiv`. -/
def points_per_screen (wd : GraphWidget) (width : ℤ) : ℤ :=
  if wd.x_step ≤ 0 then 1
  else max 1 (Int.fdiv width wd.x_step)

/-- `GraphWidget.max_scroll` (graph_widget.py lines 81-82). -/
def max_scroll (wd : GraphWidget) (width : ℤ) : ℤ :=
  max 0 ((wd.flux.length : ℤ) - points_per_screen wd width)

/-- Control-flow outcome of `GraphWidget._paint` (graph_widget.py lines
99-214), as far as the data pass is concerned. -/
inductive PaintOutcome where
  /-- Returned at lines 102-103 (`w <= 0 or h <= 0`) or lines 107-109
  (`y_range <= 0`): no value-to-position mapping (`flux_to_y`) is ever
  evaluated on this path. -/
  | earlyReturn
  /-- Returned at lines 154-156 (`n == 0`): the grids may have been drawn but
  the data pass is skipped and the cached `visible_start` / `visible_end`
  fields are not assigned (they keep their previous values — the initial
  zeros of lines 60-61 on a widget that has not drawn data). -/
  | noData
  /-- The data pass ran over the index range `start <= i < stop`
  (lines 158-163: `start = max(0, self.scroll_offset)`,
  `stop = min(n, start + fpr + 1)`, `for i in range(start, stop)`); the code
  caches `visible_start = start` and `visible_end = stop - 1`. -/
  | drawn (start stop : ℤ)
deriving DecidableEq, Repr

/-- The data-pass portion of `GraphWidget._paint` (graph_widget.py lines
99-163), with `w`, `h` the widget's pixel size.  Grid drawing (lines
124-151) touches no state relevant here and is omitted; the claims concern
the guards and the visible range. -/
def paint_outcome (wd : GraphWidget) (w h : ℤ) : PaintOutcome :=
  if w ≤ 0 ∨ h ≤ 0 then .earlyReturn
  else if wd.y_high - wd.y_low ≤ 0 then .earlyReturn
  else if wd.flux.length = 0 then .noData
  else
    let start := max 0 wd.scroll_offset
    let fpr := points_per_screen wd w
    .drawn start (min (wd.flux.length : ℤ) (start + fpr + 1))

/-- The visible index range `[start, stop)` of the data pass; `(0, 0)` when
the pass did not run — nothing is visible and, on a freshly constructed
widget, the cached `visible_start` / `visible_end` fields hold the initial
zeros of graph_widget.py lines 60-61. -/
def visible_range (o : PaintOutcome) : ℤ × ℤ :=
  match o with
  | .drawn s e => (s, e)
  | _ => (0, 0)

/-! ## List helper lemmas -/

theorem getD_replicate_self {α : Type} (n p : Nat) (a : α) :
    (List.replicate n a).getD p a = a := by
  induction n generalizing p with
  | zero => simp
  | succ n ih => cases p <;> simp [List.replicate_succ, ih]

theorem getD_set_eq_if {α : Type} (l : List α) (i j : Nat) (a d : α) :
    (l.set i a).getD j d = if i = j ∧ j < l.length then a else l.getD j d := by
  rw [List.getD_eq_getElem?_getD, List.getD_eq_getElem?_getD, List.getElem?_set]
  by_cases hij : i = j
  · subst hij
    by_cases hlen : i < l.length
    · simp [hlen]
    · simp [hlen, List.getElem?_eq_none (Nat.not_lt.mp hlen)]
  · simp [hij]

theorem chain'_getD {R : ℚ → ℚ → Prop} :
    ∀ l : List ℚ, List.Chain' R l →
      ∀ i, i + 1 < l.length → R (l.getD i 0) (l.getD (i + 1) 0)
  | [], _, i, hi => by simp at hi
  | [_], _, i, hi => by simp at hi
  | a :: b :: rest, h, i, hi => by
    rw [List.chain'_cons] at h
    cases i with
    | zero => simpa using h.1
    | succ i =>
      have := chain'_getD (b :: rest) h.2 i (by simpa using hi)
      simpa using this

/-! ## Soundness of the detector scan -/

/-- Every non-`NORMAL` label in `labels` is backed by the validation guard of
the branch that wrote it. -/
def sound_labels (flux : List ℚ) (labels : List InflectionType) : Prop :=
  ∀ p : Nat,
    (labels.getD p .NORMAL = .DOWN_TO_UP → dtu_valid flux p) ∧
    (labels.getD p .NORMAL = .UP_TO_DOWN → utd_valid flux p)

theorem sound_labels_set_dtu {flux : List ℚ} {labels : List InflectionType}
    (hs : sound_labels flux labels) {p : Nat} (hv : dtu_valid flux p) :
    sound_labels flux (labels.set p .DOWN_TO_UP) := by
  intro q
  simp only [getD_set_eq_if]
  by_cases h : p = q ∧ q < labels.length
  · rw [if_pos h]
    constructor
    · intro
      rw [← h.1]
      exact hv
    · intro hcontra
      exact absurd hcontra (by decide)
  · rw [if_neg h]
    exact hs q

theorem sound_labels_set_utd {flux : List ℚ} {labels : List InflectionType}
    (hs : sound_labels flux labels) {p : Nat} (hv : utd_valid flux p) :
    sound_labels flux (labels.set p .UP_TO_DOWN) := by
  intro q
  simp only [getD_set_eq_if]
  by_cases h : p = q ∧ q < labels.length
  · rw [if_pos h]
    constructor
    · intro hcontra
      exact absurd hcontra (by decide)
    · intro
      rw [← h.1]
      exact hv
  · rw [if_neg h]
    exact hs q

theorem sound_labels_scan_step (flux : List ℚ) (s : ScanState) (i : Nat)
    (hs : sound_labels flux s.labels) :
    sound_labels flux (scan_step flux s i).labels := by
  obtain ⟨prev, labels⟩ := s
  cases hld : local_direction flux i with
  | none =>
    simp only [scan_step, hld]
    exact hs
  | some current =>
    simp only [scan_step, hld]
    by_cases hc : current = prev
    · rw [if_pos hc]
      exact hs
    · rw [if_neg hc]
      cases prev <;> cases current
      · exact absurd rfl hc
      · by_cases hv : utd_valid flux (i - 1)
        · simpa only [if_pos hv] using sound_labels_set_utd hs hv
        · simpa only [if_neg hv] using hs
      · by_cases hv : dtu_valid flux (i - 1)
        · simpa only [if_pos hv] using sound_labels_set_dtu hs hv
        · simpa only [if_neg hv] using hs
      · exact absurd rfl hc

theorem sound_labels_foldl (flux : List ℚ) (L : List Nat) (s : ScanState)
    (hs : sound_labels flux s.labels) :
    sound_labels flux (L.foldl (scan_step flux) s).labels := by
  induction L generalizing s with
  | nil => exact hs
  | cons i L ih =>
    rw [List.foldl_cons]
    exact ih _ (sound_labels_scan_step flux s i hs)

theorem sound_labels_replicate (flux : List ℚ) (n : Nat) :
    sound_labels flux (List.replicate n .NORMAL) := by
  intro p
  rw [getD_replicate_self]
  constructor
  · intro h
    exact absurd h (by decide)
  · intro h
    exact absurd h (by decide)

/-- Every label produced by `detect_inflections` is backed by its validation
guard, whichever path computed the label list. -/
theorem detect_inflections_sound (flux : List ℚ) :
    sound_labels flux (detect_inflections flux) := by
  unfold detect_inflections
  by_cases hn : flux.length < 5
  · simpa [hn] using sound_labels_replicate flux flux.length
  · simp only [hn, if_neg, not_false_eq_true]
    cases hd : initial_direction flux with
    | none => exact sound_labels_replicate flux flux.length
    | some d =>
      exact sound_labels_foldl flux _ _ (sound_labels_replicate flux flux.length)

end Span

namespace Span

/-! ## Claim theorems: detector -/

/-- C1: `detect_inflections` labels an index `p` as `DOWN_TO_UP` or
`UP_TO_DOWN` only when `2 ≤ p`, `p + 2 < len(samples)`, and the five samples
`p-2..p+2` form a strict monotone V (for `DOWN_TO_UP`:
`samples[p-2] > samples[p-1] > samples[p]` and
`samples[p] < samples[p+1] < samples[p+2]`; for `UP_TO_DOWN` the mirror
image).  A candidate at the boundary, or one whose two-sided strict
monotonicity fails, is never labelled. -/
theorem detect_labels_only_validated (flux : List ℚ) (p : Nat) :
    ((detect_inflections flux).getD p .NORMAL = .DOWN_TO_UP →
      2 ≤ p ∧ p + 2 < flux.length ∧
      flux.getD (p - 2) 0 > flux.getD (p - 1) 0 ∧
      flux.getD (p - 1) 0 > flux.getD p 0 ∧
      flux.getD p 0 < flux.getD (p + 1) 0 ∧
      flux.getD (p + 1) 0 < flux.getD (p + 2) 0) ∧
    ((detect_inflections flux).getD p .NORMAL = .UP_TO_DOWN →
      2 ≤ p ∧ p + 2 < flux.length ∧
      flux.getD (p - 2) 0 < flux.getD (p - 1) 0 ∧
      flux.getD (p - 1) 0 < flux.getD p 0 ∧
      flux.getD p 0 > flux.getD (p + 1) 0 ∧
      flux.getD (p + 1) 0 > flux.getD (p + 2) 0) := by
  constructor
  · intro h
    obtain ⟨h1, h2, h3, h4, h5, h6⟩ := (detect_inflections_sound flux p).1 h
    exact ⟨h1, h2, h6, h5, h3, h4⟩
  · intro h
    obtain ⟨h1, h2, h3, h4, h5, h6⟩ := (detect_inflections_sound flux p).2 h
    exact ⟨h1, h2, h6, h5, h3, h4⟩

/-- Witness for C1 at the spec's example `[10, 8, 6, 7, 9, 11]`, `p = 2`. -/
theorem detect_labels_only_validated_witness :
    2 ≤ 2 ∧ 2 + 2 < ([10, 8, 6, 7, 9, 11] : List ℚ).length ∧
    ([10, 8, 6, 7, 9, 11] : List ℚ).getD 0 0 > ([10, 8, 6, 7, 9, 11] : List ℚ).getD 1 0 ∧
    ([10, 8, 6, 7, 9, 11] : List ℚ).getD 1 0 > ([10, 8, 6, 7, 9, 11] : List ℚ).getD 2 0 ∧
    ([10, 8, 6, 7, 9, 11] : List ℚ).getD 2 0 < ([10, 8, 6, 7, 9, 11] : List ℚ).getD 3 0 ∧
    ([10, 8, 6, 7, 9, 11] : List ℚ).getD 3 0 < ([10, 8, 6, 7, 9, 11] : List ℚ).getD 4 0 :=
  (detect_labels_only_validated [10, 8, 6, 7, 9, 11] 2).1 (by decide)

/-- C8: no two adjacent indices both receive a non-`NORMAL` label from
`detect_inflections`: at every `p`, at least one of the labels at `p` and
`p + 1` is `NORMAL`, so labelled reversal points are at least 2 apart. -/
theorem detect_no_adjacent_reversals (flux : List ℚ) (p : Nat) :
    (detect_inflections flux).getD p .NORMAL = .NORMAL ∨
    (detect_inflections flux).getD (p + 1) .NORMAL = .NORMAL := by
  by_cases h1 : (detect_inflections flux).getD p .NORMAL = .NORMAL
  · exact Or.inl h1
  by_cases h2 : (detect_inflections flux).getD (p + 1) .NORMAL = .NORMAL
  · exact Or.inr h2
  exfalso
  cases hA : (detect_inflections flux).getD p .NORMAL with
  | NORMAL => exact h1 hA
  | DOWN_TO_UP =>
    obtain ⟨-, -, hA3, hA4, -, -⟩ := (detect_inflections_sound flux p).1 hA
    cases hB : (detect_inflections flux).getD (p + 1) .NORMAL with
    | NORMAL => exact h2 hB
    | DOWN_TO_UP =>
      obtain ⟨-, -, -, -, hB5, -⟩ := (detect_inflections_sound flux (p + 1)).1 hB
      rw [Nat.add_sub_cancel] at hB5
      exact absurd hA3 (not_lt.mpr (le_of_lt hB5))
    | UP_TO_DOWN =>
      obtain ⟨-, -, hB3, -, -, -⟩ := (detect_inflections_sound flux (p + 1)).2 hB
      exact absurd hA4 (not_lt.mpr (le_of_lt hB3))
  | UP_TO_DOWN =>
    obtain ⟨-, -, hA3, hA4, -, -⟩ := (detect_inflections_sound flux p).2 hA
    cases hB : (detect_inflections flux).getD (p + 1) .NORMAL with
    | NORMAL => exact h2 hB
    | DOWN_TO_UP =>
      obtain ⟨-, -, hB3, -, -, -⟩ := (detect_inflections_sound flux (p + 1)).1 hB
      exact absurd hB3 (not_lt.mpr (le_of_lt hA4))
    | UP_TO_DOWN =>
      obtain ⟨-, -, -, -, hB5, -⟩ := (detect_inflections_sound flux (p + 1)).2 hB
      rw [Nat.add_sub_cancel] at hB5
      exact absurd hA3 (not_lt.mpr (le_of_lt hB5))

/-! ### Degenerate inputs -/

theorem initial_direction_eq_none_of_chain_eq :
    ∀ l : List ℚ, List.Chain' (· = ·) l → initial_direction l = none
  | [], _ => rfl
  | [_], _ => rfl
  | a :: b :: rest, h => by
    rw [List.chain'_cons] at h
    unfold initial_direction
    rw [if_neg (by rw [h.1]; exact lt_irrefl b),
      if_neg (by rw [h.1]; exact lt_irrefl b)]
    exact initial_direction_eq_none_of_chain_eq (b :: rest) h.2

/-- On a strictly increasing sample list the scan loop never leaves the `up`
state and never writes a label. -/
theorem foldl_scan_step_up (flux : List ℚ) (labels : List InflectionType)
    (hmono : ∀ j, j + 1 < flux.length → flux.getD j 0 < flux.getD (j + 1) 0) :
    ∀ L : List Nat, (∀ i ∈ L, 1 ≤ i ∧ i < flux.length) →
      L.foldl (scan_step flux) ⟨.up, labels⟩ = ⟨.up, labels⟩ := by
  intro L
  induction L with
  | nil => intro _; rfl
  | cons i L ih =>
    intro hmem
    obtain ⟨hi1, hi2⟩ := hmem i (List.mem_cons_self i L)
    have hlt : flux.getD (i - 1) 0 < flux.getD i 0 := by
      have hx := hmono (i - 1) (by omega)
      rwa [Nat.sub_add_cancel hi1] at hx
    rw [List.foldl_cons]
    have hstep : scan_step flux ⟨.up, labels⟩ i = ⟨.up, labels⟩ := by
      unfold scan_step local_direction
      rw [if_pos hlt]
      exact rfl
    rw [hstep]
    exact ih (fun j hj => hmem j (List.mem_cons_of_mem i hj))

/-- On a strictly decreasing sample list the scan loop never leaves the
`down` state and never writes a label. -/
theorem foldl_scan_step_down (flux : List ℚ) (labels : List InflectionType)
    (hmono : ∀ j, j + 1 < flux.length → flux.getD (j + 1) 0 < flux.getD j 0) :
    ∀ L : List Nat, (∀ i ∈ L, 1 ≤ i ∧ i < flux.length) →
      L.foldl (scan_step flux) ⟨.down, labels⟩ = ⟨.down, labels⟩ := by
  intro L
  induction L with
  | nil => intro _; rfl
  | cons i L ih =>
    intro hmem
    obtain ⟨hi1, hi2⟩ := hmem i (List.mem_cons_self i L)
    have hlt : flux.getD i 0 < flux.getD (i - 1) 0 := by
      have hx := hmono (i - 1) (by omega)
      rwa [Nat.sub_add_cancel hi1] at hx
    rw [List.foldl_cons]
    have hstep : scan_step flux ⟨.down, labels⟩ i = ⟨.down, labels⟩ := by
      unfold scan_step local_direction
      rw [if_neg (not_lt.mpr (le_of_lt hlt)), if_pos hlt]
      exact rfl
    rw [hstep]
    exact ih (fun j hj => hmem j (List.mem_cons_of_mem i hj))

/-- C4: the detector returns an all-`NORMAL` labelling of the same length as
the input when the input has fewer than 5 samples, or has no pair of unequal
adjacent samples, or is strictly monotonic (increasing or decreasing) of any
length. -/
theorem detect_degenerate_all_normal (flux : List ℚ)
    (h : flux.length < 5 ∨ List.Chain' (· = ·) flux ∨
      List.Chain' (· < ·) flux ∨ List.Chain' (· > ·) flux) :
    detect_inflections flux = List.replicate flux.length .NORMAL := by
  by_cases hn : flux.length < 5
  · simp only [detect_inflections]
    rw [if_pos hn]
  rcases h with h | h | h | h
  · exact absurd h hn
  · simp only [detect_inflections]
    rw [if_neg hn, initial_direction_eq_none_of_chain_eq flux h]
  · rcases hflux : flux with - | ⟨a, - | ⟨b, rest⟩⟩
    · rw [hflux] at hn; simp at hn
    · rw [hflux] at hn; simp at hn
    · rw [hflux] at h hn
      rw [List.chain'_cons] at h
      have hinit : initial_direction (a :: b :: rest) = some .up := by
        unfold initial_direction
        rw [if_pos h.1]
      simp only [detect_inflections]
      rw [if_neg hn, hinit]
      have hmono := chain'_getD (a :: b :: rest) (List.chain'_cons.mpr h)
      have hmem : ∀ i ∈ List.range' 2 ((a :: b :: rest).length - 2),
          1 ≤ i ∧ i < (a :: b :: rest).length := by
        intro i hi
        rw [List.mem_range'_1] at hi
        omega
      have hfold := foldl_scan_step_up (a :: b :: rest)
        (List.replicate (a :: b :: rest).length .NORMAL) hmono
        (List.range' 2 ((a :: b :: rest).length - 2)) hmem
      show (List.foldl (scan_step (a :: b :: rest))
          ⟨.up, List.replicate (a :: b :: rest).length .NORMAL⟩
          (List.range' 2 ((a :: b :: rest).length - 2))).labels =
        List.replicate (a :: b :: rest).length .NORMAL
      rw [hfold]
  · rcases hflux : flux with - | ⟨a, - | ⟨b, rest⟩⟩
    · rw [hflux] at hn; simp at hn
    · rw [hflux] at hn; simp at hn
    · rw [hflux] at h hn
      rw [List.chain'_cons] at h
      have hinit : initial_direction (a :: b :: rest) = some .down := by
        unfold initial_direction
        rw [if_neg (not_lt.mpr (le_of_lt h.1)), if_pos h.1]
      simp only [detect_inflections]
      rw [if_neg hn, hinit]
      have hmono := chain'_getD (a :: b :: rest) (List.chain'_cons.mpr h)
      have hmem : ∀ i ∈ List.range' 2 ((a :: b :: rest).length - 2),
          1 ≤ i ∧ i < (a :: b :: rest).length := by
        intro i hi
        rw [List.mem_range'_1] at hi
        omega
      have hfold := foldl_scan_step_down (a :: b :: rest)
        (List.replicate (a :: b :: rest).length .NORMAL) hmono
        (List.range' 2 ((a :: b :: rest).length - 2)) hmem
      show (List.foldl (scan_step (a :: b :: rest))
          ⟨.down, List.replicate (a :: b :: rest).length .NORMAL⟩
          (List.range' 2 ((a :: b :: rest).length - 2))).labels =
        List.replicate (a :: b :: rest).length .NORMAL
      rw [hfold]

/-- Witness for C4: a strictly increasing six-sample input yields all
`NORMAL`. -/
theorem detect_degenerate_all_normal_witness :
    detect_inflections [1, 2, 3, 4, 5, 6] = List.replicate 6 .NORMAL :=
  detect_degenerate_all_normal [1, 2, 3, 4, 5, 6]
    (Or.inr (Or.inr (Or.inl (by norm_num [List.chain'_cons]))))

/-- C2: for the concrete input `[10, 8, 6, 7, 9, 11]`, the detector returns
`DOWN_TO_UP` at index 2 and `NORMAL` at every other index. -/
theorem detect_example_valid_reversal :
    detect_inflections [10, 8, 6, 7, 9, 11] =
      [.NORMAL, .NORMAL, .DOWN_TO_UP, .NORMAL, .NORMAL, .NORMAL] := by
  decide

/-- C3: for the concrete input `[10, 8, 6, 7, 5, 4]`, every label is
`NORMAL`; the candidate at index 2 fails forward validation
(`dtu_valid` is false there) and is rejected, yet the tracked direction still
advances (after the iterations `i = 2, 3` the scan state's direction is `up`),
so the scan still considers the later candidate at index 3 (at `i = 4` the
local direction `down` differs from the tracked `up`), which is also rejected
(`utd_valid` is false at 3). -/
theorem detect_example_false_reversal :
    detect_inflections [10, 8, 6, 7, 5, 4] = List.replicate 6 .NORMAL ∧
    decide (dtu_valid [10, 8, 6, 7, 5, 4] 2) = false ∧
    ((List.range' 2 2).foldl (scan_step [10, 8, 6, 7, 5, 4])
        ⟨.down, List.replicate 6 .NORMAL⟩).prevDir = .up ∧
    local_direction [10, 8, 6, 7, 5, 4] 4 = some .down ∧
    decide (utd_valid [10, 8, 6, 7, 5, 4] 3) = false := by
  refine ⟨by decide, by decide, by decide, by decide, by decide⟩

/-! ## Characterization of the extraction loop -/

/-- A label survives both `continue` guards iff it is non-`NORMAL` and
matches the filter when one is given. -/
theorem skips_eq_false_iff (label : InflectionType) (filt : Option InflectionType) :
    skips label filt = false ↔
      (label ≠ .NORMAL ∧ ∀ t, filt = some t → label = t) := by
  cases filt <;> cases label <;> simp [skips]

/-- Full characterization of `collect_points` when the flux list covers all
the scanned label indices: it succeeds, the returned indices are strictly
increasing, every returned tuple is a surviving label with its flux value,
and every surviving label yields a returned tuple. -/
theorem collect_points_spec (flux : List ℚ) (filt : Option InflectionType)
    (labels : List InflectionType) :
    ∀ i : Nat, i + labels.length ≤ flux.length →
      ∃ pts, collect_points flux filt i labels = some pts ∧
        List.Pairwise (fun a b => a.1 < b.1) pts ∧
        (∀ x ∈ pts, i ≤ x.1 ∧ x.1 < i + labels.length ∧
          skips x.2.2 filt = false ∧
          labels.getD (x.1 - i) .NORMAL = x.2.2 ∧
          x.2.1 = flux.getD x.1 0) ∧
        (∀ p, i ≤ p → p < i + labels.length →
          skips (labels.getD (p - i) .NORMAL) filt = false →
          ∃ x, x ∈ pts ∧ x.1 = p) := by
  induction labels with
  | nil =>
    intro i h
    refine ⟨[], rfl, List.Pairwise.nil, ?_, ?_⟩
    · intro x hx
      simp at hx
    · intro p hp1 hp2 _
      simp at hp2
      omega
  | cons label rest ih =>
    intro i h
    obtain ⟨pts, hpts, hpw, hsound, hcomp⟩ :=
      ih (i + 1) (by simp only [List.length_cons] at h; omega)
    by_cases hskip : skips label filt = true
    · refine ⟨pts, ?_, hpw, ?_, ?_⟩
      · simp only [collect_points, if_pos hskip]
        exact hpts
      · intro x hx
        obtain ⟨h1, h2, h3, h4, h5⟩ := hsound x hx
        refine ⟨by omega, by simp only [List.length_cons]; omega, h3, ?_, h5⟩
        have hxi : x.1 - i = (x.1 - (i + 1)) + 1 := by omega
        rw [hxi, List.getD_cons_succ]
        exact h4
      · intro p hp1 hp2 hpskip
        rcases Nat.eq_or_lt_of_le hp1 with hpi | hpi
        · have h0 : p - i = 0 := by omega
          rw [h0, List.getD_cons_zero] at hpskip
          rw [hskip] at hpskip
          simp at hpskip
        · have hxi : p - i = (p - (i + 1)) + 1 := by omega
          rw [hxi, List.getD_cons_succ] at hpskip
          obtain ⟨x, hx, hxp⟩ := hcomp p (by omega)
            (by simp only [List.length_cons] at hp2; omega) hpskip
          exact ⟨x, hx, hxp⟩
    · have hskip' : skips label filt = false := by
        simpa using hskip
      have hi : i < flux.length := by
        simp only [List.length_cons] at h
        omega
      have hflux_i : flux[i]? = some (flux.getD i 0) := by
        rw [List.getD_eq_getElem?_getD, List.getElem?_eq_getElem hi]
        rfl
      refine ⟨(i, flux.getD i 0, label) :: pts, ?_, ?_, ?_, ?_⟩
      · simp only [collect_points, hskip', Bool.false_eq_true, if_false, hflux_i,
          hpts, Option.map_some']
      · rw [List.pairwise_cons]
        refine ⟨?_, hpw⟩
        intro x hx
        have h1 := (hsound x hx).1
        show i < x.1
        omega
      · intro x hx
        rcases List.mem_cons.mp hx with hx | hx
        · subst hx
          refine ⟨le_refl i, by simp only [List.length_cons]; omega, hskip', ?_, rfl⟩
          show (label :: rest).getD (i - i) .NORMAL = label
          rw [Nat.sub_self, List.getD_cons_zero]
        · obtain ⟨h1, h2, h3, h4, h5⟩ := hsound x hx
          refine ⟨by omega, by simp only [List.length_cons]; omega, h3, ?_, h5⟩
          have hxi : x.1 - i = (x.1 - (i + 1)) + 1 := by omega
          rw [hxi, List.getD_cons_succ]
          exact h4
      · intro p hp1 hp2 hpskip
        rcases Nat.eq_or_lt_of_le hp1 with hpi | hpi
        · exact ⟨(i, flux.getD i 0, label), List.mem_cons_self _ _, hpi⟩
        · have hxi : p - i = (p - (i + 1)) + 1 := by omega
          rw [hxi, List.getD_cons_succ] at hpskip
          obtain ⟨x, hx, hxp⟩ := hcomp p (by omega)
            (by simp only [List.length_cons] at hp2; omega) hpskip
          exact ⟨x, List.mem_cons_of_mem _ hx, hxp⟩

/-- When some surviving label sits at an index the flux list does not cover,
the extraction loop hits the out-of-range subscript and fails. -/
theorem collect_points_eq_none (flux : List ℚ) (filt : Option InflectionType)
    (labels : List InflectionType) :
    ∀ i p : Nat, p < labels.length →
      skips (labels.getD p .NORMAL) filt = false →
      flux.length ≤ i + p →
      collect_points flux filt i labels = none := by
  induction labels with
  | nil =>
    intro i p hp _ _
    simp at hp
  | cons label rest ih =>
    intro i p hp hpskip hlen
    cases p with
    | zero =>
      rw [List.getD_cons_zero] at hpskip
      have hnone : flux[i]? = none := List.getElem?_eq_none (by omega)
      simp only [collect_points, hpskip, Bool.false_eq_true, if_false, hnone]
    | succ q =>
      rw [List.getD_cons_succ] at hpskip
      have hrec := ih (i + 1) q (by simp only [List.length_cons] at hp; omega)
        hpskip (by omega)
      by_cases hskip : skips label filt = true
      · simp only [collect_points, if_pos hskip]
        exact hrec
      · have hskip' : skips label filt = false := by simpa using hskip
        simp only [collect_points, hskip', Bool.false_eq_true, if_false]
        cases hfi : flux[i]? with
        | none => rfl
        | some v => rw [hrec]; rfl

/-! ## Claim theorems: frame selection -/

/-- C9 (amended): when the flux list is at least as long as the label list,
`get_inflection_points` never fails and every returned tuple `(i, v, t)`
has a non-`NORMAL` label `t = labels[i]` and value `v = flux[i]`, with the
indices strictly increasing in output order; and when flux is shorter than
the labels and some index `p ≥ len(flux)` carries a non-`NORMAL` label that
survives the filter, the out-of-bounds subscript `flux[p]` makes the call
fail. -/
theorem get_inflection_points_characterization (flux : List ℚ)
    (labels : List InflectionType) (filter_type : Option InflectionType) :
    (labels.length ≤ flux.length →
      ∃ pts, get_inflection_points flux labels filter_type = some pts ∧
        List.Pairwise (fun a b => a.1 < b.1) pts ∧
        ∀ x ∈ pts, x.2.2 ≠ .NORMAL ∧ x.1 < labels.length ∧
          labels.getD x.1 .NORMAL = x.2.2 ∧ x.2.1 = flux.getD x.1 0) ∧
    (∀ p, p < labels.length → flux.length ≤ p →
      labels.getD p .NORMAL ≠ .NORMAL →
      (∀ t, filter_type = some t → labels.getD p .NORMAL = t) →
      get_inflection_points flux labels filter_type = none) := by
  constructor
  · intro h
    obtain ⟨pts, hpts, hpw, hsound, -⟩ :=
      collect_points_spec flux filter_type labels 0 (by omega)
    refine ⟨pts, hpts, hpw, ?_⟩
    intro x hx
    obtain ⟨-, h2, h3, h4, h5⟩ := hsound x hx
    rw [Nat.sub_zero] at h4
    have hnn := (skips_eq_false_iff x.2.2 filter_type).mp h3
    exact ⟨hnn.1, by omega, h4, h5⟩
  · intro p hp1 hp2 hnn hft
    apply collect_points_eq_none flux filter_type labels 0 p hp1
    · rw [skips_eq_false_iff]
      exact ⟨hnn, hft⟩
    · omega

/-- Witness for C9 (amended), both parts at concrete inputs. -/
theorem get_inflection_points_characterization_witness :
    (∃ pts, get_inflection_points [1, 2] [.NORMAL, .DOWN_TO_UP] none = some pts ∧
      List.Pairwise (fun a b => a.1 < b.1) pts ∧
      ∀ x ∈ pts, x.2.2 ≠ .NORMAL ∧
        x.1 < ([InflectionType.NORMAL, .DOWN_TO_UP] : List InflectionType).length ∧
        ([InflectionType.NORMAL, .DOWN_TO_UP] : List InflectionType).getD x.1 .NORMAL = x.2.2 ∧
        x.2.1 = ([1, 2] : List ℚ).getD x.1 0) ∧
    get_inflection_points ([] : List ℚ) [.UP_TO_DOWN] none = none := by
  constructor
  · exact (get_inflection_points_characterization [1, 2]
      [.NORMAL, .DOWN_TO_UP] none).1 (by decide)
  · exact (get_inflection_points_characterization []
      [.UP_TO_DOWN] none).2 0 (by decide) (by decide) (by decide)
      (by intro t ht; cases ht)

/-- Counterexample to C9 as stated: the flux list is shorter than the label
list and index 0 (which is `≥ len(flux)`) carries a non-`NORMAL` label, yet
`get_inflection_points` succeeds — the mismatching filter skips the label
before `flux[0]` is ever subscripted, so no out-of-bounds access happens. -/
theorem get_inflection_points_short_flux_no_failure :
    ([] : List ℚ).length < [InflectionType.UP_TO_DOWN].length ∧
    [InflectionType.UP_TO_DOWN].getD 0 .NORMAL = .UP_TO_DOWN ∧
    get_inflection_points ([] : List ℚ) [.UP_TO_DOWN] (some .DOWN_TO_UP) =
      some [] := by
  refine ⟨by decide, by decide, by decide⟩

/-- C5: with the label list aligned to the flux list, the 1-based selection
derived from `get_inflection_points` succeeds and returns exactly the 1-based
indices of the labels matching the requested type (all non-`NORMAL` indices
when no filter is given), strictly ascending (hence unique); on an
all-`NORMAL` label sequence the result is empty. -/
theorem frame_selection_ascending_unique (flux : List ℚ)
    (labels : List InflectionType) (filter_type : Option InflectionType)
    (h : labels.length ≤ flux.length) :
    ∃ idxs, selected_frame_indices flux labels filter_type = some idxs ∧
      List.Pairwise (· < ·) idxs ∧
      (∀ q, q ∈ idxs ↔ ∃ p, q = p + 1 ∧ p < labels.length ∧
        labels.getD p .NORMAL ≠ .NORMAL ∧
        ∀ t, filter_type = some t → labels.getD p .NORMAL = t) ∧
      ((∀ l ∈ labels, l = .NORMAL) → idxs = []) := by
  obtain ⟨pts, hpts, hpw, hsound, hcomp⟩ :=
    collect_points_spec flux filter_type labels 0 (by omega)
  refine ⟨pts.map (fun x => x.1 + 1), ?_, ?_, ?_, ?_⟩
  · unfold selected_frame_indices get_inflection_points
    rw [hpts]
    rfl
  · exact List.Pairwise.map _ (fun a b hab => by omega) hpw
  · intro q
    constructor
    · intro hq
      obtain ⟨x, hx, hxq⟩ := List.mem_map.mp hq
      obtain ⟨-, h2, h3, h4, -⟩ := hsound x hx
      rw [Nat.sub_zero] at h4
      have hk := (skips_eq_false_iff x.2.2 filter_type).mp h3
      refine ⟨x.1, hxq.symm, by omega, ?_, ?_⟩
      · rw [h4]
        exact hk.1
      · intro t ht
        rw [h4]
        exact hk.2 t ht
    · rintro ⟨p, hq, hp, hnn, hft⟩
      have hsk : skips (labels.getD (p - 0) .NORMAL) filter_type = false := by
        rw [Nat.sub_zero, skips_eq_false_iff]
        exact ⟨hnn, hft⟩
      obtain ⟨x, hx, hxp⟩ := hcomp p (by omega) (by omega) hsk
      subst hq
      exact List.mem_map.mpr ⟨x, hx, by rw [hxp]⟩
  · intro hall
    rw [List.eq_nil_iff_forall_not_mem]
    intro q hq
    obtain ⟨x, hx, -⟩ := List.mem_map.mp hq
    obtain ⟨-, h2, h3, h4, -⟩ := hsound x hx
    rw [Nat.sub_zero] at h4
    have hk := (skips_eq_false_iff x.2.2 filter_type).mp h3
    have hlt : x.1 < labels.length := by omega
    have hmem : labels.getD x.1 .NORMAL ∈ labels := by
      rw [List.getD_eq_getElem?_getD, List.getElem?_eq_getElem hlt]
      exact List.getElem_mem hlt
    have hxn : x.2.2 = .NORMAL := by
      rw [← h4]
      exact hall _ hmem
    exact hk.1 hxn

/-- Witness for C5 at a concrete aligned input with one label of each kind. -/
theorem frame_selection_ascending_unique_witness :
    ∃ idxs, selected_frame_indices [1, 2, 3]
        [.NORMAL, .DOWN_TO_UP, .UP_TO_DOWN] (some .DOWN_TO_UP) = some idxs ∧
      List.Pairwise (· < ·) idxs ∧
      (∀ q, q ∈ idxs ↔ ∃ p, q = p + 1 ∧
        p < ([InflectionType.NORMAL, .DOWN_TO_UP, .UP_TO_DOWN] : List InflectionType).length ∧
        ([InflectionType.NORMAL, .DOWN_TO_UP, .UP_TO_DOWN] : List InflectionType).getD p .NORMAL ≠ .NORMAL ∧
        ∀ t, (some InflectionType.DOWN_TO_UP : Option InflectionType) = some t →
          ([InflectionType.NORMAL, .DOWN_TO_UP, .UP_TO_DOWN] : List InflectionType).getD p .NORMAL = t) ∧
      ((∀ l ∈ ([InflectionType.NORMAL, .DOWN_TO_UP, .UP_TO_DOWN] : List InflectionType),
        l = .NORMAL) → idxs = []) :=
  frame_selection_ascending_unique [1, 2, 3]
    [.NORMAL, .DOWN_TO_UP, .UP_TO_DOWN] (some .DOWN_TO_UP) (by decide)

/-! ## Claim theorems: viewport -/

/-- Python's floor division `//` (`Int.fdiv`) by a positive divisor is the
mathematical floor of the exact quotient. -/
theorem fdiv_eq_rat_floor (a : ℤ) {b : ℤ} (hb : 0 < b) :
    Int.fdiv a b = ⌊(a : ℚ) / (b : ℚ)⌋ := by
  rw [Int.fdiv_eq_ediv a (le_of_lt hb)]
  have hbn : ((b.toNat : ℕ) : ℤ) = b := Int.toNat_of_nonneg (le_of_lt hb)
  rw [← hbn, Int.cast_natCast]
  exact (Rat.floor_intCast_div_natCast a b.toNat).symm

/-- C7: degenerate viewport configuration never raises:
`points_per_screen` is `max(1, ⌊renderWidth / xStep⌋)` when `xStep > 0` and
`1` when `xStep ≤ 0` (never a division by zero, always at least 1), and when
the value range has `y_high ≤ y_low` the paint routine takes the explicit
no-mapping early exit instead of dividing by a non-positive range. -/
theorem viewport_degenerate_guarded (wd : GraphWidget) (width h : ℤ) :
    (wd.x_step ≤ 0 → points_per_screen wd width = 1) ∧
    (0 < wd.x_step →
      points_per_screen wd width = max 1 ⌊(width : ℚ) / (wd.x_step : ℚ)⌋) ∧
    1 ≤ points_per_screen wd width ∧
    (wd.y_high ≤ wd.y_low → paint_outcome wd width h = .earlyReturn) := by
  refine ⟨?_, ?_, ?_, ?_⟩
  · intro hx
    unfold points_per_screen
    rw [if_pos hx]
  · intro hx
    unfold points_per_screen
    rw [if_neg (not_le.mpr hx), fdiv_eq_rat_floor width hx]
  · unfold points_per_screen
    by_cases hx : wd.x_step ≤ 0
    · rw [if_pos hx]
    · rw [if_neg hx]
      exact le_max_left 1 _
  · intro hy
    unfold paint_outcome
    by_cases hw : width ≤ 0 ∨ h ≤ 0
    · rw [if_pos hw]
    · rw [if_neg hw, if_pos (show wd.y_high - wd.y_low ≤ 0 by linarith)]

/-- Witness for C7, one concrete widget per guarded case. -/
theorem viewport_degenerate_guarded_witness :
    points_per_screen { x_step := 0 } 800 = 1 ∧
    points_per_screen { x_step := 5 } 800 = max 1 ⌊(800 : ℚ) / ((5 : ℤ) : ℚ)⌋ ∧
    1 ≤ points_per_screen { } 800 ∧
    paint_outcome { y_low := 10, y_high := 10 } 800 600 = .earlyReturn := by
  refine ⟨?_, ?_, ?_, ?_⟩
  · exact (viewport_degenerate_guarded { x_step := 0 } 800 600).1 (by decide)
  · exact (viewport_degenerate_guarded { x_step := 5 } 800 600).2.1 (by decide)
  · exact (viewport_degenerate_guarded { } 800 600).2.2.1
  · exact (viewport_degenerate_guarded { y_low := 10, y_high := 10 } 800 600).2.2.2
      (by decide)

/-- C6: when the paint routine reaches the data pass (positive pixel size,
valid value range), the visible range is
`start = max(0, scroll_offset)`, `stop = min(totalSamples, start +
points_per_screen + 1)` (one extra trailing point), and when there are no
samples the data pass is skipped and the visible range is `(0, 0)`. -/
theorem viewport_visible_range (wd : GraphWidget) (width h : ℤ)
    (hw : 0 < width) (hh : 0 < h) (hy : wd.y_low < wd.y_high) :
    (wd.flux.length ≠ 0 →
      paint_outcome wd width h =
        .drawn (max 0 wd.scroll_offset)
          (min (wd.flux.length : ℤ)
            (max 0 wd.scroll_offset + points_per_screen wd width + 1))) ∧
    (wd.flux.length = 0 → visible_range (paint_outcome wd width h) = (0, 0)) := by
  have hcond : ¬(width ≤ 0 ∨ h ≤ 0) := by
    push_neg
    exact ⟨hw, hh⟩
  have hycond : ¬(wd.y_high - wd.y_low ≤ 0) := by linarith
  constructor
  · intro hn
    unfold paint_outcome
    rw [if_neg hcond, if_neg hycond, if_neg hn]
  · intro hn
    unfold paint_outcome
    rw [if_neg hcond, if_neg hycond, if_pos hn]
    rfl

/-- Witness for C6: a three-sample widget draws `[0, min 3 (0 + fpr + 1))`;
an empty widget has visible range `(0, 0)`. -/
theorem viewport_visible_range_witness :
    paint_outcome { flux := [1, 2, 3] } 800 600 =
      .drawn (max 0 (0 : ℤ))
        (min ((3 : ℕ) : ℤ)
          (max 0 (0 : ℤ) + points_per_screen { flux := [1, 2, 3] } 800 + 1)) ∧
    visible_range (paint_outcome { } 800 600) = (0, 0) := by
  constructor
  · exact (viewport_visible_range { flux := [1, 2, 3] } 800 600
      (by decide) (by decide) (by decide)).1 (by decide)
  · exact (viewport_visible_range { } 800 600
      (by decide) (by decide) (by decide)).2 rfl

/-- C10: `set_data` stores the new flux and label lists and resets
`scroll_offset` to 0, and changes no other widget field: every display
setting, toggle, colour, and the cached visible range are untouched. -/
theorem set_data_frame (w : GraphWidget) (flux : List ℚ)
    (labels : List InflectionType) :
    (set_data w flux labels).flux = flux ∧
    (set_data w flux labels).labels = labels ∧
    (set_data w flux labels).scroll_offset = 0 ∧
    (set_data w flux labels).y_low = w.y_low ∧
    (set_data w flux labels).y_high = w.y_high ∧
    (set_data w flux labels).x_step = w.x_step ∧
    (set_data w flux labels).grid_x = w.grid_x ∧
    (set_data w flux labels).grid_y = w.grid_y ∧
    (set_data w flux labels).grid_font_size = w.grid_font_size ∧
    (set_data w flux labels).line_thickness = w.line_thickness ∧
    (set_data w flux labels).show_x_grid = w.show_x_grid ∧
    (set_data w flux labels).show_y_grid = w.show_y_grid ∧
    (set_data w flux labels).highlight_inversions = w.highlight_inversions ∧
    (set_data w flux labels).draw_slice_number = w.draw_slice_number ∧
    (set_data w flux labels).draw_point_marker = w.draw_point_marker ∧
    (set_data w flux labels).show_down_to_up = w.show_down_to_up ∧
    (set_data w flux labels).show_up_to_down = w.show_up_to_down ∧
    (set_data w flux labels).colors = w.colors ∧
    (set_data w flux labels).visible_start = w.visible_start ∧
    (set_data w flux labels).visible_end = w.visible_end :=
  ⟨rfl, rfl, rfl, rfl, rfl, rfl, rfl, rfl, rfl, rfl, rfl, rfl, rfl, rfl, rfl,
    rfl, rfl, rfl, rfl, rfl⟩

end Span
